import Mathlib

/-!
Shallow embedding of `dotfiles.py` (a personal dotfiles manager): the override
name parser, the condition predicates, the per-group override resolver
(`get_override_files`), the symlink application step (`symlink_file` and the
apply loop of `cli_apply`), and the `test` subcommand's expression evaluation
(`cli_test`).

Machine-facing state (the filesystem) is modelled as an association list from
absolute paths (lists of components) to entries (regular file, directory, or
symlink carrying its target).  The process environment (`platform.uname()`)
is modelled as an explicit record queried nowhere else.  Python runtime errors
(`KeyError` on a missing dict key, `exit(1)` on a parse failure or symlink
conflict, `AttributeError` on `None.name`) are modelled with `Except` /
explicit error outcomes.
-/

deriving instance DecidableEq for Except

namespace Dotfiles

/-- A filesystem path, as its list of components from the root. -/
abbrev Path := List String

/-- The fields of `platform.uname()` that the program reads: `system`,
`release` and `node` (the hostname). -/
structure Env where
  system : String
  release : String
  node : String
deriving DecidableEq

/-- The `Condition` enum.  In the Python source it is an `IntEnum` with
`host = 2`, `hostname = 2`, `os = 1`, `default = 0`; because `hostname` has
the same value as `host` it is an *alias* for the same member, so the enum has
exactly three distinct members, modelled here as three constructors. -/
inductive Condition where
  | host
  | os
  | default
deriving DecidableEq

/-- The integer value of each `Condition` member (used by the resolver's
`f_overrides.cond > best_overrides.cond` comparison). -/
def Condition.rank : Condition → Nat
  | .host => 2
  | .os => 1
  | .default => 0

/-- `Condition[name]` (member access by name, case-sensitive, aliases
included): `Condition["hostname"]` is the same member as
`Condition["host"]`.  `none` models the `KeyError` raised for any other
string. -/
def Condition.fromName (s : String) : Option Condition :=
  if s = "host" then some Condition.host
  else if s = "hostname" then some Condition.host
  else if s = "os" then some Condition.os
  else if s = "default" then some Condition.default
  else none

/-- `Condition.__members__.keys()`: all member names, aliases included, in
declaration order. -/
def membersKeys : List String := ["host", "hostname", "os", "default"]

/-- The `Override` named tuple produced by `parse_override_name`. -/
structure Override where
  cond : Condition
  comp : Option String
  name : String
deriving DecidableEq

/-- Whether `pat` occurs as a contiguous subsequence of `l` (the semantics of
Python's `"WSL" in res.release`). -/
def containsSeq (pat : List Char) : List Char → Bool
  | [] => pat.isEmpty
  | c :: rest => pat.isPrefixOf (c :: rest) || containsSeq pat rest

/-- `hostname_condition(comp)`: `comp == res.node`.  `comp` is `str | None`
in Python; comparing `None` with a string is `False`, so the argument is an
`Option String` compared against `some`. -/
def hostname_condition (env : Env) (comp : Option String) : Bool :=
  comp == some env.node

/-- `os_condition(comp)`: `True` if `"WSL" in res.release and comp == "WSL"`,
otherwise `comp == res.system`. -/
def os_condition (env : Env) (comp : Option String) : Bool :=
  if containsSeq "WSL".data env.release.data && comp == some "WSL" then true
  else comp == some env.system

/-- `CONDITIONS_CALLABLE_MAP`: a dict keyed by `Condition` members.  Its
literal keys are `Condition.hostname`, `Condition.host` (the same member) and
`Condition.os`; there is **no** entry for `Condition.default`, so looking that
member up raises `KeyError`, modelled by `none`. -/
def CONDITIONS_CALLABLE_MAP : Condition → Option (Env → Option String → Bool)
  | Condition.host => some hostname_condition
  | Condition.os => some os_condition
  | Condition.default => none

/-- `VALID_CONDITIONS = ["os", "host", "hostname"]`. -/
def VALID_CONDITIONS : List String := ["os", "host", "hostname"]

/-- The parse failures of `parse_override_name` (both are `exit(1)` in the
source, after logging): an unrecognized condition name in a
`cond.comp@name` match, or a name matching neither pattern. -/
inductive ParseError where
  | invalidCondition
  | noConditionFound
deriving DecidableEq

/-- `DEFAULT_REGEX = re.compile(r"default@(?P<name>.+)", flags=re.I)` applied
with `re.match` (anchored at the start only).  The literal `default@` is
matched case-insensitively; `.+` then greedily captures one or more
characters other than `'\n'` (Python's `.` does not match a newline without
`re.DOTALL`).  Returns the captured `name` group. -/
def defaultMatch (s : String) : Option String :=
  let cs := s.data
  let nm := (cs.drop 8).takeWhile (fun c => c ≠ '\n')
  if (cs.take 8).map Char.toLower = "default@".data ∧ nm ≠ [] then
    some (String.mk nm)
  else none

/-- `CONDITIONAL_REGEX = re.compile(r"(?P<cond>[a-zA-Z]+)\.(?P<comp>[a-zA-Z]+)@(?P<name>.+)")`
applied with `re.match`.  `[a-zA-Z]+` before the dot can only match the
maximal initial run of ASCII letters (backtracking to a shorter run would
leave a letter where `\.` must match), and likewise for the run before `@`;
`.+` greedily captures one or more non-newline characters.  Returns the
`(cond, comp, name)` groups. -/
def conditionalMatch (s : String) : Option (String × String × String) :=
  let cs := s.data
  let cond := cs.takeWhile Char.isAlpha
  match cs.drop cond.length with
  | '.' :: r2 =>
    let comp := r2.takeWhile Char.isAlpha
    match r2.drop comp.length with
    | '@' :: r4 =>
      let nm := r4.takeWhile (fun c => c ≠ '\n')
      if cond ≠ [] ∧ comp ≠ [] ∧ nm ≠ [] then
        some (String.mk cond, String.mk comp, String.mk nm)
      else none
    | _ => none
  | _ => none

/-- `str.lower()` for the strings this program lowers.  The only lowered
string is the `cond` group of `CONDITIONAL_REGEX`, which `[a-zA-Z]+`
restricts to ASCII letters, where Python's `lower()` and a per-character
ASCII lowering agree. -/
def lowerAscii (s : String) : String := String.mk (s.data.map Char.toLower)

/-- `parse_override_name`: try `DEFAULT_REGEX` first, then
`CONDITIONAL_REGEX` with the lower-cased condition looked up against
`VALID_CONDITIONS` (`"os"`, `"host"`, `"hostname"`, mapped through
`Condition[...]`, where `hostname` aliases `host`); any other condition word
is the `invalidCondition` exit, and no match at all is the
`noConditionFound` exit. -/
def parse_override_name (name : String) : Except ParseError Override :=
  match defaultMatch name with
  | some nm => Except.ok ⟨Condition.default, none, nm⟩
  | none =>
    match conditionalMatch name with
    | some (cond, comp, nm) =>
      if lowerAscii cond = "os" then Except.ok ⟨Condition.os, some comp, nm⟩
      else if lowerAscii cond = "host" then Except.ok ⟨Condition.host, some comp, nm⟩
      else if lowerAscii cond = "hostname" then Except.ok ⟨Condition.host, some comp, nm⟩
      else Except.error ParseError.invalidCondition
    | none => Except.error ParseError.noConditionFound

/-- `path.name` for a modelled path: its last component (`""` for the empty
path, which never arises for globbed files). -/
def lastName (p : Path) : String := p.getLast?.getD ""

/-- One candidate of a group: `(path, Override)` as built by
`get_override_files`. -/
abbrev Cand := Path × Override

/-- One iteration of the per-group scan in `get_override_files`:

```
if f_overrides.cond == Condition.default and best is None:
    best, best_overrides = f, f_overrides; continue
condition = CONDITIONS_CALLABLE_MAP[f_overrides.cond](f_overrides.comp)
if condition and (best_overrides is None or f_overrides.cond > best_overrides.cond):
    best, best_overrides = f, f_overrides
```

`best` and `best_overrides` are always assigned together, so they are one
`Option Cand` here.  When the first guard fails the dict lookup runs even for
a `default` descriptor, where it raises `KeyError` (`Except.error ()`). -/
def step (env : Env) (best : Option Cand) (c : Cand) : Except Unit (Option Cand) :=
  if c.2.cond = Condition.default ∧ best = none then Except.ok (some c)
  else
    match CONDITIONS_CALLABLE_MAP c.2.cond with
    | none => Except.error ()
    | some pred =>
      match best with
      | none => if pred env c.2.comp then Except.ok (some c) else Except.ok none
      | some b =>
        if pred env c.2.comp ∧ b.2.cond.rank < c.2.cond.rank then Except.ok (some c)
        else Except.ok (some b)

/-- The whole per-group scan, threading `best` through `step`. -/
def scanGroup (env : Env) : Option Cand → List Cand → Except Unit (Option Cand)
  | best, [] => Except.ok best
  | best, c :: rest =>
    match step env best c with
    | Except.error e => Except.error e
    | Except.ok b => scanGroup env b rest

/-- Resolve one candidate group, starting from `best = None`. -/
def resolveGroup (env : Env) (cands : List Cand) : Except Unit (Option Cand) :=
  scanGroup env none cands

/-- Append a candidate to the group of `key` in an insertion-ordered
association list (the behaviour of the Python dict in
`get_override_files`). -/
def insertGroup : List (Path × List Cand) → Path → Cand → List (Path × List Cand)
  | [], key, c => [(key, [c])]
  | (k, l) :: rest, key, c =>
    if k = key then (k, l ++ [c]) :: rest
    else (k, l) :: insertGroup rest key c

/-- The grouping loop of `get_override_files`: parse each discovered path's
file name (a parse failure is `exit(1)`, aborting everything) and append the
candidate under its normalized path `path.parent / overrides.name`. -/
def buildGroupsAux : List (Path × List Cand) → List Path → Except ParseError (List (Path × List Cand))
  | acc, [] => Except.ok acc
  | acc, p :: rest =>
    match parse_override_name (lastName p) with
    | Except.error e => Except.error e
    | Except.ok ov => buildGroupsAux (insertGroup acc (p.dropLast ++ [ov.name]) (p, ov)) rest

/-- Group all discovered override paths, in discovery order. -/
def buildGroups (inputs : List Path) : Except ParseError (List (Path × List Cand)) :=
  buildGroupsAux [] inputs

/-- The fatal failures of the override pipeline: a parse `exit(1)` or the
`KeyError` escaping the resolver scan. -/
inductive RunError where
  | parse (e : ParseError)
  | keyError
deriving DecidableEq

/-- The second loop of `get_override_files`: for each group in insertion
order, run the scan and append `best` to `symlinks` — **unconditionally**, so
a group with no winner appends `None`. -/
def collectGroups (env : Env) : List (Path × List Cand) → Except RunError (List (Option Path))
  | [] => Except.ok []
  | (_, cands) :: rest =>
    match resolveGroup env cands with
    | Except.error _ => Except.error RunError.keyError
    | Except.ok best =>
      match collectGroups env rest with
      | Except.error e => Except.error e
      | Except.ok l => Except.ok (Option.map Prod.fst best :: l)

/-- `get_override_files`, over an explicit list of discovered override file
paths (the `DOTFILES.glob("overrides/**/*")` results) and an explicit
environment. -/
def get_override_files (env : Env) (inputs : List Path) : Except RunError (List (Option Path)) :=
  match buildGroups inputs with
  | Except.error e => Except.error (RunError.parse e)
  | Except.ok groups => collectGroups env groups

/-- A filesystem entry: regular file, directory, or symlink with its target
path. -/
inductive Entry where
  | file
  | dir
  | link (target : Path)
deriving DecidableEq

/-- The filesystem: an association list from paths to entries (first match
wins; entries are only ever added under keys that are absent). -/
abbrev FS := List (Path × Entry)

/-- Look a path up in the filesystem. -/
def lookupFS (p : Path) : FS → Option Entry
  | [] => none
  | (k, e) :: rest => if k = p then some e else lookupFS p rest

/-- `to.exists(follow_symlinks=False)`: an entry is present at the path,
symlink (even broken) included. -/
def lexists (fs : FS) (p : Path) : Bool := (lookupFS p fs).isSome

/-- `to.resolve()`: a symlink resolves to its recorded target, anything else
to itself.  (Symlink targets in this model are plain paths; chains of links do
not arise because links are only ever created pointing at regular dotfiles.) -/
def resolveP (fs : FS) (p : Path) : Path :=
  match lookupFS p fs with
  | some (Entry.link t) => t
  | _ => p

/-- All prefixes of a path, shortest first: the chain of directories
`mkdir(parents=True)` walks. -/
def initsP : Path → List Path
  | [] => [[]]
  | a :: rest => [] :: (initsP rest).map (fun q => a :: q)

/-- Create the given directories in order, skipping the ones that already
have an entry. -/
def mkdirFold : FS → List Path → FS
  | s, [] => s
  | s, d :: rest =>
    mkdirFold (if (lookupFS d s).isSome then s else (d, Entry.dir) :: s) rest

/-- `dir.mkdir(parents=True)`: ensure the directory and all its ancestors
exist. -/
def mkdirParents (fs : FS) (dir : Path) : FS := mkdirFold fs (initsP dir)

/-- `symlink_file(original, to)`:

```
if to.exists(follow_symlinks=False) and to.resolve() != original:  # conflict
    ...; exit(1)
elif not to.exists(follow_symlinks=False):
    if not to.parent.exists(): to.parent.mkdir(parents=True)
    to.symlink_to(original)
else:  # already exists and resolves to original
    ...  # "already existed, skipping"
```

`exit(1)` is `Except.error` carrying the (unchanged) filesystem.  The Python
parameter `to` is named `dst` here (`to` is reserved in Lean). -/
def symlink_file (fs : FS) (original dst : Path) : Except FS FS :=
  if lexists fs dst ∧ resolveP fs dst ≠ original then Except.error fs
  else if lexists fs dst = false then
    Except.ok ((dst, Entry.link original) ::
      (if lexists fs dst.dropLast then fs else mkdirParents fs dst.dropLast))
  else Except.ok fs

/-- The application loop: run `symlink_file` over the resolved
`(original, to)` pairs in order; the first conflict aborts the whole run with
the filesystem as it stood. -/
def apply_run : FS → List (Path × Path) → Except FS FS
  | fs, [] => Except.ok fs
  | fs, (o, t) :: rest =>
    match symlink_file fs o t with
    | Except.error f => Except.error f
    | Except.ok fs1 => apply_run fs1 rest

/-- The dotfiles root directory, as a modelled path. -/
def DOTFILESp : Path := ["dotfiles"]

/-- The home directory, as a modelled path. -/
def HOMEp : Path := ["home"]

/-- `get_relative_overrides_to_home`: strip the `DOTFILES / "overrides"`
prefix (the globbed inputs always lie under it) and graft onto `HOME`. -/
def get_relative_overrides_to_home (p : Path) : Path :=
  HOMEp ++ p.drop (DOTFILESp ++ ["overrides"]).length

/-- How an `apply` run over the overrides can fail: a fatal error out of
`get_override_files`, the `AttributeError` crash on a `None` entry of its
result (`file.name` with `file = None`), a parse `exit(1)` in the apply loop
itself, or a symlink conflict `exit(1)`. -/
inductive ApplyError where
  | resolve (e : RunError)
  | attributeError
  | parse (e : ParseError)
  | conflict
deriving DecidableEq

/-- The overrides half of `cli_apply` (no dry run): for each entry of
`get_override_files()`, re-parse its name, compute the home target of the
normalized path, and symlink.  A `None` entry crashes on `file.name`. -/
def applyOverridesPhase : FS → List (Option Path) → FS × Option ApplyError
  | fs, [] => (fs, none)
  | fs, none :: _ => (fs, some ApplyError.attributeError)
  | fs, some f :: rest =>
    match parse_override_name (lastName f) with
    | Except.error e => (fs, some (ApplyError.parse e))
    | Except.ok ov =>
      match symlink_file fs f (get_relative_overrides_to_home (f.dropLast ++ [ov.name])) with
      | Except.error f' => (f', some ApplyError.conflict)
      | Except.ok fs1 => applyOverridesPhase fs1 rest

/-- `cli_apply` restricted to the overrides action: resolve first (any fatal
error there aborts before any symlinking), then apply. -/
def cli_apply_overrides (env : Env) (fs : FS) (inputs : List Path) : FS × Option ApplyError :=
  match get_override_files env inputs with
  | Except.error e => (fs, some (ApplyError.resolve e))
  | Except.ok files => applyOverridesPhase fs files

/-- Python's `expr.split(".")`: split on every dot, keeping empty pieces. -/
def splitDot : List Char → List (List Char)
  | [] => [[]]
  | c :: rest =>
    if c = '.' then [] :: splitDot rest
    else
      match splitDot rest with
      | [] => [[c]]
      | piece :: pieces => (c :: piece) :: pieces

/-- What `cli_test` does with one expression: print a boolean, or log one of
its error messages, or crash with `KeyError`. -/
inductive TestOutcome where
  | printed (b : Bool)
  | invalid
  | keyError
  | defaultNoComp
  | badExpr
deriving DecidableEq

/-- One iteration of `cli_test`:

```
split = expr.split(".")
if len(split) == 2:
    condition_str, comparison = split
    if condition_str not in Condition.__members__.keys(): ...error...
    else: print(CONDITIONS_CALLABLE_MAP[Condition[condition_str]](comparison))
else:
    ...("default takes no comparison" if expr == "default" else "invalid")...
```

The dict lookup `CONDITIONS_CALLABLE_MAP[Condition[condition_str]]` is the
composition of the two `Option`-modelled lookups; `none` is the `KeyError`. -/
def cli_test_one (env : Env) (expr : String) : TestOutcome :=
  match splitDot expr.data with
  | [condChars, compChars] =>
    if membersKeys.contains (String.mk condChars) then
      match (Condition.fromName (String.mk condChars)).bind CONDITIONS_CALLABLE_MAP with
      | some pred => TestOutcome.printed (pred env (some (String.mk compChars)))
      | none => TestOutcome.keyError
    else TestOutcome.invalid
  | _ => if expr = "default" then TestOutcome.defaultNoComp else TestOutcome.badExpr

/-- The predicate value the scan computes for a candidate (meaningful for
`os`/`host` candidates, whose kinds have entries in the map). -/
def condEval (env : Env) (c : Cand) : Bool :=
  match CONDITIONS_CALLABLE_MAP c.2.cond with
  | some pred => pred env c.2.comp
  | none => false

/-- A side candidate of a group: a conditional (non-default) candidate whose
predicate evaluates false, which the scan steps over without touching
`best`. -/
def falseSide (env : Env) (c : Cand) : Prop :=
  (c.2.cond = Condition.os ∨ c.2.cond = Condition.host) ∧ condEval env c = false

instance (env : Env) (c : Cand) : Decidable (falseSide env c) :=
  inferInstanceAs (Decidable (_ ∧ _))

/-- A target is settled for a source: an entry exists at the target and
resolves to the source (so `symlink_file` is a no-op on the pair). -/
def settled (fs : FS) (o t : Path) : Prop :=
  lexists fs t = true ∧ resolveP fs t = o

/-- A concrete environment for witnesses: a Linux host named `myhost`. -/
def envW : Env := ⟨"Linux", "6.1.0-generic", "myhost"⟩

/-- A hostname-conditioned override candidate matching `envW`. -/
def candHostTrue : Cand :=
  (["dotfiles", "overrides", "hostname.myhost@x"], ⟨Condition.host, some "myhost", "x"⟩)

/-- A second hostname-conditioned candidate (spelled `host.`) also matching
`envW`, with the same rank and the same normalized target. -/
def candHostTrue2 : Cand :=
  (["dotfiles", "overrides", "host.myhost@x"], ⟨Condition.host, some "myhost", "x"⟩)

/-- An OS-conditioned candidate matching `envW`. -/
def candOsTrue : Cand :=
  (["dotfiles", "overrides", "os.Linux@x"], ⟨Condition.os, some "Linux", "x"⟩)

/-- A default candidate for the same target. -/
def candDefault : Cand :=
  (["dotfiles", "overrides", "default@x"], ⟨Condition.default, none, "x"⟩)

/-- A filesystem in which `home/x` is occupied by a regular file. -/
def fsW : FS := [(["home", "x"], Entry.file)]

/-- The filesystem produced by linking `dotfiles/x` to `home/x` on an empty
filesystem. -/
def fsLinked : FS :=
  [(["home", "x"], Entry.link ["dotfiles", "x"]), (["home"], Entry.dir), ([], Entry.dir)]

/-- The one-pair resolved mapping used by the idempotence witness. -/
def pairsW : List (Path × Path) := [(["dotfiles", "x"], ["home", "x"])]

theorem map_host_eq : CONDITIONS_CALLABLE_MAP Condition.host = some hostname_condition := rfl

theorem map_os_eq : CONDITIONS_CALLABLE_MAP Condition.os = some os_condition := rfl

theorem map_default_eq : CONDITIONS_CALLABLE_MAP Condition.default = none := rfl

theorem step_false (env : Env) (b : Option Cand) (c : Cand) (h : falseSide env c) :
    step env b c = Except.ok b := by
  obtain ⟨hk, he⟩ := h
  rcases hk with h | h <;>
    · simp only [condEval, h, CONDITIONS_CALLABLE_MAP] at he
      cases b <;> simp [step, h, CONDITIONS_CALLABLE_MAP, he]

theorem step_set_true (env : Env) (c : Cand) (hnd : c.2.cond ≠ Condition.default)
    (ht : condEval env c = true) : step env none c = Except.ok (some c) := by
  cases hk : c.2.cond with
  | default => exact absurd hk hnd
  | host =>
    simp only [condEval, hk, CONDITIONS_CALLABLE_MAP] at ht
    simp [step, hk, CONDITIONS_CALLABLE_MAP, ht]
  | os =>
    simp only [condEval, hk, CONDITIONS_CALLABLE_MAP] at ht
    simp [step, hk, CONDITIONS_CALLABLE_MAP, ht]

theorem step_keep_rank_le (env : Env) (b c : Cand) (hnd : c.2.cond ≠ Condition.default)
    (hr : c.2.cond.rank ≤ b.2.cond.rank) : step env (some b) c = Except.ok (some b) := by
  cases hk : c.2.cond with
  | default => exact absurd hk hnd
  | host =>
    rw [hk] at hr
    simp [step, hk, CONDITIONS_CALLABLE_MAP, Nat.not_lt.mpr hr]
  | os =>
    rw [hk] at hr
    simp [step, hk, CONDITIONS_CALLABLE_MAP, Nat.not_lt.mpr hr]

theorem step_override (env : Env) (b c : Cand) (hnd : c.2.cond ≠ Condition.default)
    (ht : condEval env c = true) (hr : b.2.cond.rank < c.2.cond.rank) :
    step env (some b) c = Except.ok (some c) := by
  cases hk : c.2.cond with
  | default => exact absurd hk hnd
  | host =>
    simp only [condEval, hk, CONDITIONS_CALLABLE_MAP] at ht
    rw [hk] at hr
    simp [step, hk, CONDITIONS_CALLABLE_MAP, ht, hr]
  | os =>
    simp only [condEval, hk, CONDITIONS_CALLABLE_MAP] at ht
    rw [hk] at hr
    simp [step, hk, CONDITIONS_CALLABLE_MAP, ht, hr]

theorem step_default_none (env : Env) (c : Cand) (hd : c.2.cond = Condition.default) :
    step env none c = Except.ok (some c) := by
  simp [step, hd]

theorem step_shape (env : Env) (b : Option Cand) (c : Cand) (hnd : c.2.cond ≠ Condition.default) :
    step env b c = Except.ok b ∨ step env b c = Except.ok (some c) := by
  cases hk : c.2.cond with
  | default => exact absurd hk hnd
  | host =>
    cases b with
    | none =>
      by_cases hv : hostname_condition env c.2.comp = true
      · exact Or.inr (by simp [step, hk, CONDITIONS_CALLABLE_MAP, hv])
      · exact Or.inl (by simp [step, hk, CONDITIONS_CALLABLE_MAP, hv])
    | some b' =>
      by_cases hv : hostname_condition env c.2.comp = true ∧ b'.2.cond.rank < (Condition.host).rank
      · exact Or.inr (by simp [step, hk, CONDITIONS_CALLABLE_MAP, hv.1, hv.2])
      · exact Or.inl (by simp [step, hk, CONDITIONS_CALLABLE_MAP]; intro h1 h2; exact absurd ⟨h1, h2⟩ hv)
  | os =>
    cases b with
    | none =>
      by_cases hv : os_condition env c.2.comp = true
      · exact Or.inr (by simp [step, hk, CONDITIONS_CALLABLE_MAP, hv])
      · exact Or.inl (by simp [step, hk, CONDITIONS_CALLABLE_MAP, hv])
    | some b' =>
      by_cases hv : os_condition env c.2.comp = true ∧ b'.2.cond.rank < (Condition.os).rank
      · exact Or.inr (by simp [step, hk, CONDITIONS_CALLABLE_MAP, hv.1, hv.2])
      · exact Or.inl (by simp [step, hk, CONDITIONS_CALLABLE_MAP]; intro h1 h2; exact absurd ⟨h1, h2⟩ hv)

theorem scan_append (env : Env) (l1 l2 : List Cand) : ∀ b,
    scanGroup env b (l1 ++ l2) =
      match scanGroup env b l1 with
      | Except.error e => Except.error e
      | Except.ok b1 => scanGroup env b1 l2 := by
  induction l1 with
  | nil => intro b; simp [scanGroup]
  | cons c rest ih =>
    intro b
    simp only [List.cons_append, scanGroup]
    cases step env b c with
    | error e => rfl
    | ok b' => exact ih b'

theorem scan_false (env : Env) (l : List Cand) (hl : ∀ c ∈ l, falseSide env c) : ∀ b,
    scanGroup env b l = Except.ok b := by
  induction l with
  | nil => intro b; rfl
  | cons c rest ih =>
    intro b
    have hc := hl c (by simp)
    simp only [scanGroup, step_false env b c hc]
    exact ih (fun c' hc' => hl c' (by simp [hc'])) b

theorem scan_keep_top (env : Env) (hc : Cand) (hh : hc.2.cond = Condition.host) :
    ∀ l : List Cand, (∀ c ∈ l, c.2.cond ≠ Condition.default) →
      scanGroup env (some hc) l = Except.ok (some hc) := by
  intro l
  induction l with
  | nil => intro _; rfl
  | cons c rest ih =>
    intro hl
    have hr : c.2.cond.rank ≤ hc.2.cond.rank := by
      rw [hh]
      cases hk : c.2.cond with
      | default => exact absurd hk (hl c (by simp))
      | host => simp [Condition.rank]
      | os => simp [Condition.rank]
    simp only [scanGroup, step_keep_rank_le env hc c (hl c (by simp)) hr]
    exact ih (fun c' hc' => hl c' (by simp [hc']))

theorem scan_reach (env : Env) (osC hostC : Cand)
    (hh : hostC.2.cond = Condition.host) (hht : condEval env hostC = true)
    (ho : osC.2.cond = Condition.os) :
    ∀ ys : List Cand, ∀ b0 : Option Cand, hostC ∈ ys →
      (∀ c ∈ ys, falseSide env c ∨ c = osC ∨ c = hostC) →
      (b0 = none ∨ ∃ b, b0 = some b ∧ b.2.cond.rank ≤ 1) →
      scanGroup env b0 ys = Except.ok (some hostC) := by
  intro ys
  induction ys with
  | nil => intro b0 hm; exact absurd hm (by simp)
  | cons c rest ih =>
    intro b0 hm hall hb0
    have hnd : ∀ c' ∈ c :: rest, c'.2.cond ≠ Condition.default := by
      intro c' hc'
      rcases hall c' hc' with hfs | hcc | hcc
      · rcases hfs.1 with h | h <;> simp [h]
      · simp [hcc, ho]
      · simp [hcc, hh]
    by_cases hc : c = hostC
    · subst hc
      have hset : step env b0 c = Except.ok (some c) := by
        rcases hb0 with rfl | ⟨b, rfl, hbr⟩
        · exact step_set_true env c (by simp [hh]) hht
        · exact step_override env b c (by simp [hh]) hht
            (by rw [hh]; show b.2.cond.rank < 2; omega)
      simp only [scanGroup, hset]
      exact scan_keep_top env c hh rest (fun c' hc' => hnd c' (by simp [hc']))
    · have hm' : hostC ∈ rest := by
        rcases List.mem_cons.mp hm with h | h
        · exact absurd h.symm hc
        · exact h
      have hall' : ∀ c' ∈ rest, falseSide env c' ∨ c' = osC ∨ c' = hostC :=
        fun c' hc' => hall c' (by simp [hc'])
      rcases hall c (by simp) with hfs | hcc | hcc
      · simp only [scanGroup, step_false env b0 c hfs]
        exact ih b0 hm' hall' hb0
      · subst hcc
        rcases step_shape env b0 c (by simp [ho]) with hs | hs <;> simp only [scanGroup, hs]
        · exact ih b0 hm' hall' hb0
        · exact ih (some c) hm' hall' (Or.inr ⟨c, rfl, by rw [ho]; decide⟩)
      · exact absurd hcc hc

theorem mkdirFold_preserves (p : Path) (e : Entry) :
    ∀ (l : List Path) (s : FS), lookupFS p s = some e → lookupFS p (mkdirFold s l) = some e := by
  intro l
  induction l with
  | nil => intro s hs; exact hs
  | cons d rest ih =>
    intro s hs
    simp only [mkdirFold]
    by_cases hd : (lookupFS d s).isSome
    · rw [if_pos hd]; exact ih s hs
    · rw [if_neg hd]
      refine ih _ ?_
      have hne : d ≠ p := by
        intro h
        rw [h, hs] at hd
        simp at hd
      simp [lookupFS, hne]
      exact hs

theorem mkdirFold_mem (d : Path) :
    ∀ (l : List Path) (s : FS), d ∈ l → (lookupFS d (mkdirFold s l)).isSome = true := by
  intro l
  induction l with
  | nil => intro s h; simp at h
  | cons d' rest ih =>
    intro s hmem
    simp only [mkdirFold]
    rcases List.mem_cons.mp hmem with rfl | hmem'
    · by_cases hd : (lookupFS d s).isSome
      · rw [if_pos hd]
        obtain ⟨e, he⟩ := Option.isSome_iff_exists.mp hd
        rw [mkdirFold_preserves d e rest s he]
        rfl
      · rw [if_neg hd]
        have : lookupFS d ((d, Entry.dir) :: s) = some Entry.dir := by simp [lookupFS]
        rw [mkdirFold_preserves d Entry.dir rest _ this]
        rfl
    · by_cases hd : (lookupFS d' s).isSome
      · rw [if_pos hd]; exact ih s hmem'
      · rw [if_neg hd]; exact ih _ hmem'

theorem self_mem_initsP : ∀ p : Path, p ∈ initsP p := by
  intro p
  induction p with
  | nil => simp [initsP]
  | cons a rest ih =>
    simp only [initsP, List.mem_cons]
    exact Or.inr (List.mem_map.mpr ⟨rest, ih, rfl⟩)

theorem mkdirParents_self (fs : FS) (dir : Path) :
    (lookupFS dir (mkdirParents fs dir)).isSome = true :=
  mkdirFold_mem dir (initsP dir) fs (self_mem_initsP dir)

theorem apply_run_append (l1 l2 : List (Path × Path)) : ∀ fs : FS,
    apply_run fs (l1 ++ l2) =
      match apply_run fs l1 with
      | Except.error f => Except.error f
      | Except.ok fs1 => apply_run fs1 l2 := by
  induction l1 with
  | nil => intro fs; simp [apply_run]
  | cons pr rest ih =>
    intro fs
    obtain ⟨o, t⟩ := pr
    simp only [List.cons_append, apply_run]
    cases symlink_file fs o t with
    | error f => rfl
    | ok fs1 => exact ih fs1

theorem symlink_preserves (s s1 : FS) (o t : Path) (h : symlink_file s o t = Except.ok s1)
    (p : Path) (e : Entry) (hp : lookupFS p s = some e) : lookupFS p s1 = some e := by
  by_cases h1 : lexists s t ∧ resolveP s t ≠ o
  · simp [symlink_file, h1] at h
  · by_cases h2 : lexists s t = false
    · simp only [symlink_file, if_neg h1, if_pos h2, Except.ok.injEq] at h
      subst h
      have hne : t ≠ p := by
        intro hq
        rw [hq] at h2
        simp [lexists, hp] at h2
      rw [lookupFS, if_neg hne]
      by_cases h3 : lexists s t.dropLast
      · rw [if_pos h3]; exact hp
      · rw [if_neg h3]; exact mkdirFold_preserves p e _ s hp
    · simp only [symlink_file, if_neg h1, if_neg h2, Except.ok.injEq] at h
      subst h
      exact hp

theorem apply_run_preserves : ∀ (l : List (Path × Path)) (s s1 : FS),
    apply_run s l = Except.ok s1 →
      ∀ (p : Path) (e : Entry), lookupFS p s = some e → lookupFS p s1 = some e := by
  intro l
  induction l with
  | nil => intro s s1 h p e hp; simp only [apply_run, Except.ok.injEq] at h; rwa [← h]
  | cons pr rest ih =>
    intro s s1 h p e hp
    obtain ⟨o, t⟩ := pr
    simp only [apply_run] at h
    cases hs : symlink_file s o t with
    | error f => rw [hs] at h; exact absurd h (by simp)
    | ok fs1 =>
      rw [hs] at h
      exact ih fs1 s1 h p e (symlink_preserves s fs1 o t hs p e hp)

theorem step_settles (s s1 : FS) (o t : Path) (h : symlink_file s o t = Except.ok s1) :
    settled s1 o t := by
  by_cases h1 : lexists s t ∧ resolveP s t ≠ o
  · simp [symlink_file, h1] at h
  · by_cases h2 : lexists s t = false
    · simp only [symlink_file, if_neg h1, if_pos h2, Except.ok.injEq] at h
      subst h
      constructor
      · simp [lexists, lookupFS]
      · simp [resolveP, lookupFS]
    · simp only [symlink_file, if_neg h1, if_neg h2, Except.ok.injEq] at h
      obtain rfl := h
      have hex : lexists s t = true := by
        cases hv : lexists s t
        · exact absurd hv h2
        · rfl
      refine ⟨hex, ?_⟩
      by_contra hne
      exact h1 ⟨hex, hne⟩

theorem settled_run (s s1 : FS) (o t : Path) (l : List (Path × Path))
    (hs : settled s o t) (h : apply_run s l = Except.ok s1) : settled s1 o t := by
  obtain ⟨hex, hres⟩ := hs
  obtain ⟨e, he⟩ := Option.isSome_iff_exists.mp hex
  have he1 : lookupFS t s1 = some e := apply_run_preserves l s s1 h t e he
  constructor
  · simp [lexists, he1]
  · have hsame : resolveP s1 t = resolveP s t := by
      unfold resolveP
      rw [he1, he]
    rw [hsame]
    exact hres

theorem settled_noop (s : FS) (o t : Path) (hs : settled s o t) :
    symlink_file s o t = Except.ok s := by
  obtain ⟨hex, hres⟩ := hs
  have h1 : ¬(lexists s t ∧ resolveP s t ≠ o) := by
    intro h
    exact h.2 hres
  rw [symlink_file, if_neg h1, if_neg (by simp [hex])]

theorem run_settles : ∀ (l : List (Path × Path)) (s s1 : FS),
    apply_run s l = Except.ok s1 → ∀ o t : Path, (o, t) ∈ l → settled s1 o t := by
  intro l
  induction l with
  | nil => intro s s1 _ o t hm; simp at hm
  | cons pr rest ih =>
    intro s s1 h o t hm
    obtain ⟨o0, t0⟩ := pr
    simp only [apply_run] at h
    cases hs : symlink_file s o0 t0 with
    | error f => rw [hs] at h; exact absurd h (by simp)
    | ok fs1 =>
      rw [hs] at h
      rcases List.mem_cons.mp hm with heq | hm'
      · obtain ⟨rfl, rfl⟩ := Prod.mk.injEq .. ▸ And.intro (congrArg Prod.fst heq) (congrArg Prod.snd heq)
        exact settled_run fs1 s1 o t rest (step_settles s fs1 o t hs) h
      · exact ih fs1 s1 h o t hm'

theorem take_len_succ {α : Type} (x : α) :
    ∀ (a b : List α), (a ++ x :: b).take (a.length + 1) = a ++ [x] := by
  intro a
  induction a with
  | nil => intro b; simp
  | cons y rest ih =>
    intro b
    show (y :: (rest ++ x :: b)).take (rest.length + 1 + 1) = y :: (rest ++ [x])
    rw [List.take_succ_cons, ih b]

theorem drop_len_succ {α : Type} (x : α) :
    ∀ (a b : List α), (a ++ x :: b).drop (a.length + 1) = b := by
  intro a
  induction a with
  | nil => intro b; simp
  | cons y rest ih =>
    intro b
    show (y :: (rest ++ x :: b)).drop (rest.length + 1 + 1) = b
    rw [List.drop_succ_cons, ih b]

theorem takeWhile_of_all {α : Type} (p : α → Bool) :
    ∀ l : List α, (∀ c ∈ l, p c = true) → l.takeWhile p = l := by
  intro l
  induction l with
  | nil => intro _; rfl
  | cons y rest ih =>
    intro h
    simp [List.takeWhile_cons, h y (by simp), ih (fun c hc => h c (by simp [hc]))]

theorem run_of_settled : ∀ (l : List (Path × Path)) (s : FS),
    (∀ o t : Path, (o, t) ∈ l → settled s o t) → apply_run s l = Except.ok s := by
  intro l
  induction l with
  | nil => intro s _; rfl
  | cons pr rest ih =>
    intro s hall
    obtain ⟨o, t⟩ := pr
    simp only [apply_run, settled_noop s o t (hall o t (by simp))]
    exact ih s (fun o' t' hm => hall o' t' (by simp [hm]))

/-- C7 (amended): for every non-empty name string `n` that contains no
newline character, `parse` applied to `"default@" ++ n` — with the literal
`"default"` matched case-insensitively, here phrased as any 7-character
string whose ASCII lowering is `"default"` — returns the descriptor
`{kind: Default, comparisonValue: None, targetName: n}`; and whenever the
default pattern matches at all, its result is returned without consulting
the conditional pattern (the default pattern takes precedence). -/
theorem spec_C7 :
    (∀ d n : String, d.data.map Char.toLower = "default".data → n ≠ "" →
        (∀ c ∈ n.data, c ≠ '\n') →
        parse_override_name (d ++ "@" ++ n) = Except.ok ⟨Condition.default, none, n⟩)
    ∧ (∀ s nm, defaultMatch s = some nm →
        parse_override_name s = Except.ok ⟨Condition.default, none, nm⟩) := by
  constructor
  · intro d n hd hn hnl
    have hlen : d.data.length = 7 := by
      have := congrArg List.length hd
      simpa using this
    have h8 : (8 : Nat) = d.data.length + 1 := by omega
    have hdata : (d ++ "@" ++ n).data = d.data ++ '@' :: n.data := by
      rw [String.data_append, String.data_append]
      simp
    have hne : n.data ≠ [] := by
      intro hdn
      exact hn (by cases n; simp_all)
    have hmap : ((d ++ "@" ++ n).data.take 8).map Char.toLower = "default@".data := by
      rw [hdata, h8, take_len_succ '@' d.data n.data, List.map_append, hd]
      decide
    have hdrop : (d ++ "@" ++ n).data.drop 8 = n.data := by
      rw [hdata, h8]
      exact drop_len_succ '@' d.data n.data
    have htw : n.data.takeWhile (fun c => decide (c ≠ '\n')) = n.data :=
      takeWhile_of_all _ n.data (fun c hc => by simp [hnl c hc])
    have hdm : defaultMatch (d ++ "@" ++ n) = some n := by
      unfold defaultMatch
      simp only [hmap, hdrop, htw]
      simp [hne]
    simp [parse_override_name, hdm]
  · intro s nm h
    simp [parse_override_name, h]

/-- C7 counterexample: for the non-empty name `"a\nb"`, `parse` of
`"default@a\nb"` yields the descriptor with target name `"a"` (the `.+` of
`DEFAULT_REGEX` stops at the newline), not `"a\nb"` as the claim states for
every non-empty name. -/
theorem spec_C7_counterexample :
    parse_override_name ("default@" ++ "a\nb") = Except.ok ⟨Condition.default, none, "a"⟩ ∧
      parse_override_name ("default@" ++ "a\nb") ≠
        Except.ok ⟨Condition.default, none, "a\nb"⟩ := by
  constructor
  · decide
  · decide

/-- C7 witness: `parse("DEFAULT@x")` returns `{Default, None, "x"}`. -/
theorem spec_C7_witness :
    parse_override_name ("DEFAULT" ++ "@" ++ "x") =
      Except.ok ⟨Condition.default, none, "x"⟩ :=
  spec_C7.1 "DEFAULT" "x" (by decide) (by decide) (by decide)

/-- C3 (amended): in a group containing a true-evaluating `Os` candidate and
a true-evaluating `Hostname` candidate, in either relative order, whose other
candidates are false-evaluating conditionals — and at most one `Default`
candidate, which must precede every true-evaluating candidate (a `Default`
scanned once a best is set crashes the scan, see the C3 counterexample) —
the resolver's winner is the `Hostname` candidate. -/
theorem spec_C3 (env : Env) (xs d ys : List Cand) (osC hostC : Cand)
    (hxs : ∀ c ∈ xs, falseSide env c)
    (hd : d = [] ∨ ∃ dc : Cand, d = [dc] ∧ dc.2.cond = Condition.default)
    (hys : ∀ c ∈ ys, falseSide env c ∨ c = osC ∨ c = hostC)
    (hosK : osC.2.cond = Condition.os) (hosT : condEval env osC = true)
    (hhK : hostC.2.cond = Condition.host) (hhT : condEval env hostC = true)
    (hmo : osC ∈ ys) (hmh : hostC ∈ ys) :
    resolveGroup env (xs ++ d ++ ys) = Except.ok (some hostC) := by
  unfold resolveGroup
  rw [List.append_assoc, scan_append env xs (d ++ ys), scan_false env xs hxs none]
  rcases hd with rfl | ⟨dc, rfl, hdc⟩
  · show scanGroup env none ([] ++ ys) = Except.ok (some hostC)
    rw [List.nil_append]
    exact scan_reach env osC hostC hhK hhT hosK ys none hmh hys (Or.inl rfl)
  · show scanGroup env none (dc :: ys) = Except.ok (some hostC)
    simp only [scanGroup, step_default_none env dc hdc]
    exact scan_reach env osC hostC hhK hhT hosK ys (some dc) hmh hys
      (Or.inr ⟨dc, rfl, by rw [hdc]; decide⟩)

/-- C3 counterexample: the claim allows Default candidates to follow the two
true-evaluating candidates; on the group `[os-true, hostname-true, default]`
the scan reaches the Default with a best already set, looks
`Condition.default` up in `CONDITIONS_CALLABLE_MAP` and crashes with
`KeyError`, so the winner is not the Hostname candidate. -/
theorem spec_C3_counterexample :
    resolveGroup envW [candOsTrue, candHostTrue, candDefault] = Except.error () ∧
      resolveGroup envW [candOsTrue, candHostTrue, candDefault] ≠
        Except.ok (some candHostTrue) := by
  exact ⟨by decide, by decide⟩

/-- C3 witness: on `envW`, the group `[os.Linux@x, hostname.myhost@x]` (both
true) resolves to the hostname candidate. -/
theorem spec_C3_witness :
    resolveGroup envW [candOsTrue, candHostTrue] = Except.ok (some candHostTrue) := by
  have h := spec_C3 envW [] [] [candOsTrue, candHostTrue] candOsTrue candHostTrue
    (by simp) (Or.inl rfl) (by decide) (by decide) (by decide) (by decide) (by decide)
    (by decide) (by decide)
  simpa using h

/-- C4 (amended): in a group containing two candidates of the same
specificity rank that both evaluate true, all other candidates evaluating
false, the resolver selects whichever of the two is encountered **first**
during the scan (the strict `>` rank comparison never lets an equal-ranked
later match replace the current best). -/
theorem spec_C4 (env : Env) (xs ys zs : List Cand) (c1 c2 : Cand)
    (hxs : ∀ c ∈ xs, falseSide env c)
    (hys : ∀ c ∈ ys, falseSide env c)
    (hzs : ∀ c ∈ zs, falseSide env c)
    (h1K : c1.2.cond ≠ Condition.default) (h2K : c2.2.cond ≠ Condition.default)
    (hrank : c1.2.cond.rank = c2.2.cond.rank)
    (h1T : condEval env c1 = true) (h2T : condEval env c2 = true) :
    resolveGroup env (xs ++ [c1] ++ ys ++ [c2] ++ zs) = Except.ok (some c1) := by
  unfold resolveGroup
  have hre : xs ++ [c1] ++ ys ++ [c2] ++ zs = xs ++ (c1 :: (ys ++ c2 :: zs)) := by simp
  rw [hre, scan_append env xs (c1 :: (ys ++ c2 :: zs)), scan_false env xs hxs none]
  show scanGroup env none (c1 :: (ys ++ c2 :: zs)) = Except.ok (some c1)
  simp only [scanGroup, step_set_true env c1 h1K h1T]
  rw [scan_append env ys (c2 :: zs), scan_false env ys hys (some c1)]
  show scanGroup env (some c1) (c2 :: zs) = Except.ok (some c1)
  simp only [scanGroup, step_keep_rank_le env c1 c2 h2K (by omega)]
  exact scan_false env zs hzs (some c1)

/-- C4 counterexample: two rank-2 true-evaluating candidates
(`hostname.myhost@x` then `host.myhost@x`): the resolver returns the first
one, and the two are distinct, so "whichever is encountered last" is false. -/
theorem spec_C4_counterexample :
    resolveGroup envW [candHostTrue, candHostTrue2] = Except.ok (some candHostTrue) ∧
      candHostTrue ≠ candHostTrue2 := by
  exact ⟨by decide, by decide⟩

/-- C4 witness: the amended theorem applied to the two-candidate group. -/
theorem spec_C4_witness :
    resolveGroup envW ([] ++ [candHostTrue] ++ [] ++ [candHostTrue2] ++ []) =
      Except.ok (some candHostTrue) :=
  spec_C4 envW [] [] [] candHostTrue candHostTrue2 (by simp) (by simp) (by simp)
    (by decide) (by decide) (by decide) (by decide) (by decide)

/-- C1, code evaluated at the failing input: on a Linux host, a group made of
the single never-matching candidate `os.Windows@x` with no default does not
drop out of the result — `get_override_files` appends `None` for it, so the
returned list is `[None]` rather than containing only chosen source paths. -/
theorem spec_C1 :
    get_override_files envW [["dotfiles", "overrides", "os.Windows@x"]] =
      Except.ok [none] := by
  decide

/-- C2, code evaluated at the failing input: scanning a group in which a
`Default` candidate follows a true-evaluating hostname candidate reaches the
`Default` with a best already set, so the guard `cond == default and best is
None` fails and `CONDITIONS_CALLABLE_MAP[Condition.default]` raises
`KeyError` — the scan crashes instead of leaving the best unchanged. -/
theorem spec_C2 :
    resolveGroup envW [candHostTrue, candDefault] = Except.error () := by
  decide

/-- C5: if the application step finds the target existing and not resolving
to the intended source, the whole run aborts with the filesystem as it stood
before that pair (no further pending pair is applied); if the target already
resolves to the source the step is a no-op; and if the target does not exist
a symlink to the source is created, with the parent directory present. -/
theorem spec_C5 (fs fs1 : FS) (orig dst : Path) (pre rest : List (Path × Path)) :
    (apply_run fs pre = Except.ok fs1 → lexists fs1 dst = true → resolveP fs1 dst ≠ orig →
        apply_run fs (pre ++ (orig, dst) :: rest) = Except.error fs1)
    ∧ (lexists fs dst = true → resolveP fs dst = orig →
        symlink_file fs orig dst = Except.ok fs)
    ∧ (lexists fs dst = false →
        ∃ fs2, symlink_file fs orig dst = Except.ok fs2 ∧
          lookupFS dst fs2 = some (Entry.link orig) ∧
          (lookupFS dst.dropLast fs2).isSome = true) := by
  refine ⟨?_, ?_, ?_⟩
  · intro hpre hex hres
    rw [apply_run_append pre ((orig, dst) :: rest) fs, hpre]
    show apply_run fs1 ((orig, dst) :: rest) = Except.error fs1
    have hconf : symlink_file fs1 orig dst = Except.error fs1 := by
      rw [symlink_file, if_pos ⟨hex, hres⟩]
    simp only [apply_run, hconf]
  · intro hex hres
    have h1 : ¬(lexists fs dst ∧ resolveP fs dst ≠ orig) := fun h => h.2 hres
    rw [symlink_file, if_neg h1, if_neg (by simp [hex])]
  · intro hnex
    have h1 : ¬(lexists fs dst ∧ resolveP fs dst ≠ orig) := by
      intro h
      rw [hnex] at h
      exact Bool.false_ne_true h.1
    refine ⟨(dst, Entry.link orig) ::
      (if lexists fs dst.dropLast then fs else mkdirParents fs dst.dropLast), ?_, ?_, ?_⟩
    · rw [symlink_file, if_neg h1, if_pos hnex]
    · simp [lookupFS]
    · rw [lookupFS]
      by_cases he : dst = dst.dropLast
      · rw [if_pos he]; rfl
      · rw [if_neg he]
        by_cases hp : lexists fs dst.dropLast = true
        · rw [if_pos hp]
          exact hp
        · rw [if_neg hp]
          exact mkdirParents_self fs dst.dropLast

/-- C5 witness: the three conjuncts at concrete inputs — aborting on the
occupied `home/x` with a pending pair left untouched, the no-op on an
already-correct link, and creation on an empty filesystem. -/
theorem spec_C5_witness :
    apply_run fsW
        ([] ++ (["dotfiles", "x"], ["home", "x"]) :: [(["dotfiles", "y"], ["home", "y"])]) =
      Except.error fsW ∧
    symlink_file fsLinked ["dotfiles", "x"] ["home", "x"] = Except.ok fsLinked ∧
    (∃ fs2, symlink_file [] ["dotfiles", "x"] ["home", "x"] = Except.ok fs2 ∧
      lookupFS ["home", "x"] fs2 = some (Entry.link ["dotfiles", "x"]) ∧
      (lookupFS (["home", "x"] : Path).dropLast fs2).isSome = true) :=
  ⟨(spec_C5 fsW fsW ["dotfiles", "x"] ["home", "x"] []
      [(["dotfiles", "y"], ["home", "y"])]).1 rfl (by decide) (by decide),
   (spec_C5 fsLinked fsLinked ["dotfiles", "x"] ["home", "x"] [] []).2.1
      (by decide) (by decide),
   (spec_C5 [] [] ["dotfiles", "x"] ["home", "x"] [] []).2.2 (by decide)⟩

/-- C6: applying a resolved mapping is idempotent — if a run over the pairs
succeeds, running it again from the resulting filesystem succeeds with the
identical filesystem, and every single pair of the second run is a no-op
(no filesystem mutation at any step). -/
theorem spec_C6 (fs fs1 : FS) (pairs : List (Path × Path))
    (h : apply_run fs pairs = Except.ok fs1) :
    apply_run fs1 pairs = Except.ok fs1 ∧
      ∀ o t : Path, (o, t) ∈ pairs → symlink_file fs1 o t = Except.ok fs1 := by
  have hs : ∀ o t : Path, (o, t) ∈ pairs → settled fs1 o t := run_settles pairs fs fs1 h
  exact ⟨run_of_settled pairs fs1 (fun o t hm => hs o t hm),
    fun o t hm => settled_noop fs1 o t (hs o t hm)⟩

/-- C6 witness: linking `dotfiles/x` into an empty home yields `fsLinked`;
re-running the same mapping from `fsLinked` changes nothing. -/
theorem spec_C6_witness :
    apply_run fsLinked pairsW = Except.ok fsLinked ∧
      ∀ o t : Path, (o, t) ∈ pairsW → symlink_file fsLinked o t = Except.ok fsLinked :=
  spec_C6 [] fsLinked pairsW (by decide)

theorem buildGroupsAux_error_iff : ∀ (inputs : List Path) (acc : List (Path × List Cand)),
    (∃ e, buildGroupsAux acc inputs = Except.error e) ↔
      ∃ p ∈ inputs, ∃ e, parse_override_name (lastName p) = Except.error e := by
  intro inputs
  induction inputs with
  | nil => intro acc; simp [buildGroupsAux]
  | cons p rest ih =>
    intro acc
    simp only [buildGroupsAux]
    cases hp : parse_override_name (lastName p) with
    | error e =>
      constructor
      · intro _
        exact ⟨p, by simp, e, hp⟩
      · intro _
        exact ⟨e, rfl⟩
    | ok ov =>
      constructor
      · intro h
        obtain ⟨p', hp', e', he'⟩ := (ih _).mp h
        exact ⟨p', by simp [hp'], e', he'⟩
      · intro h
        obtain ⟨p', hp', e', he'⟩ := h
        rcases List.mem_cons.mp hp' with rfl | hm
        · rw [hp] at he'
          exact absurd he' (by simp)
        · exact (ih _).mpr ⟨p', hm, e', he'⟩

/-- C8: `parse` fails with exactly two error outcomes — `invalidCondition`
exactly when the default pattern does not match but the conditional pattern
(`letters.letters@name`) does with a lower-cased condition outside
`{os, host, hostname}`, and `noConditionFound` exactly when neither pattern
matches — with `parse("bogus.x@y")` and `parse("plainname")` as instances;
and any parse failure is fatal for the whole apply run, aborting it with the
filesystem untouched before any symlinking. -/
theorem spec_C8 :
    (∀ s, parse_override_name s = Except.error ParseError.invalidCondition ↔
        defaultMatch s = none ∧ ∃ cond comp nm, conditionalMatch s = some (cond, comp, nm) ∧
          lowerAscii cond ∉ VALID_CONDITIONS)
    ∧ (∀ s, parse_override_name s = Except.error ParseError.noConditionFound ↔
        defaultMatch s = none ∧ conditionalMatch s = none)
    ∧ parse_override_name "bogus.x@y" = Except.error ParseError.invalidCondition
    ∧ parse_override_name "plainname" = Except.error ParseError.noConditionFound
    ∧ (∀ (env : Env) (fs : FS) (inputs : List Path) (e : ParseError),
        buildGroups inputs = Except.error e →
          cli_apply_overrides env fs inputs =
            (fs, some (ApplyError.resolve (RunError.parse e))))
    ∧ (∀ inputs : List Path, (∃ e, buildGroups inputs = Except.error e) ↔
        ∃ p ∈ inputs, ∃ e, parse_override_name (lastName p) = Except.error e) := by
  refine ⟨?_, ?_, by decide, by decide, ?_, ?_⟩
  · intro s
    unfold parse_override_name
    cases hdm : defaultMatch s with
    | some nm => simp [hdm]
    | none =>
      cases hcm : conditionalMatch s with
      | none => simp [hcm]
      | some triple =>
        obtain ⟨cond, comp, nm⟩ := triple
        by_cases h1 : lowerAscii cond = "os"
        · simp [VALID_CONDITIONS, h1]
        · by_cases h2 : lowerAscii cond = "host"
          · simp [VALID_CONDITIONS, h1, h2]
          · by_cases h3 : lowerAscii cond = "hostname"
            · simp [VALID_CONDITIONS, h1, h2, h3]
            · simp [VALID_CONDITIONS, h1, h2, h3]
  · intro s
    unfold parse_override_name
    cases hdm : defaultMatch s with
    | some nm => simp [hdm]
    | none =>
      cases hcm : conditionalMatch s with
      | none => simp [hcm]
      | some triple =>
        obtain ⟨cond, comp, nm⟩ := triple
        by_cases h1 : lowerAscii cond = "os"
        · simp [h1]
        · by_cases h2 : lowerAscii cond = "host"
          · simp [h1, h2]
          · by_cases h3 : lowerAscii cond = "hostname"
            · simp [h1, h2, h3]
            · simp [h1, h2, h3]
  · intro env fs inputs e h
    unfold cli_apply_overrides get_override_files
    rw [h]
  · intro inputs
    exact buildGroupsAux_error_iff inputs []

/-- C8 witness: an apply run over a single misnamed override file
(`plainname`) fails with the `noConditionFound` parse error, leaving the
(empty) filesystem untouched — no symlinking happens. -/
theorem spec_C8_witness :
    cli_apply_overrides envW [] [["dotfiles", "overrides", "plainname"]] =
      ([], some (ApplyError.resolve (RunError.parse ParseError.noConditionFound))) :=
  spec_C8.2.2.2.2.1 envW [] [["dotfiles", "overrides", "plainname"]]
    ParseError.noConditionFound (by decide)

/-- C9: the OS predicate is true exactly when the comparison equals the
reported system name or the kernel release contains the substring `"WSL"`
and the comparison is `"WSL"`; the hostname predicate is true exactly when
the comparison equals the host name; and the `host` and `hostname` condition
kinds are the same enum member, mapped to that same hostname predicate, with
tie-break rank 2. -/
theorem spec_C9 :
    (∀ (env : Env) (comp : Option String), os_condition env comp = true ↔
        (comp = some env.system ∨
          (containsSeq "WSL".data env.release.data = true ∧ comp = some "WSL")))
    ∧ (∀ (env : Env) (comp : Option String), hostname_condition env comp = true ↔
        comp = some env.node)
    ∧ Condition.fromName "host" = some Condition.host
    ∧ Condition.fromName "hostname" = some Condition.host
    ∧ CONDITIONS_CALLABLE_MAP Condition.host = some hostname_condition
    ∧ Condition.host.rank = 2 := by
  refine ⟨?_, ?_, rfl, rfl, rfl, rfl⟩
  · intro env comp
    unfold os_condition
    by_cases h : (containsSeq "WSL".data env.release.data && comp == some "WSL") = true
    · rw [if_pos h]
      rw [Bool.and_eq_true, beq_iff_eq] at h
      constructor
      · intro _
        exact Or.inr ⟨h.1, h.2⟩
      · intro _
        rfl
    · rw [if_neg h]
      rw [beq_iff_eq]
      constructor
      · intro hh
        exact Or.inl hh
      · intro hh
        rcases hh with hh | ⟨hc, hw⟩
        · exact hh
        · exact absurd (by rw [hc, hw]; simp) h
  · intro env comp
    unfold hostname_condition
    rw [beq_iff_eq]

/-- C10: in the `test` subcommand, an expression splitting on `"."` into
exactly two parts passes the validity check exactly when its condition token
is (case-sensitively) one of `host`, `hostname`, `os`, `default`; for
`os`/`host`/`hostname` the mapped predicate's boolean is printed; but the
condition map has no `Default` entry, so an accepted `default.<comp>`
expression hits an unhandled `KeyError` instead of being reported invalid. -/
theorem spec_C10 (env : Env) (expr : String) (c comp : List Char)
    (h : splitDot expr.data = [c, comp]) :
    (cli_test_one env expr = TestOutcome.invalid ↔
        ¬(String.mk c = "host" ∨ String.mk c = "hostname" ∨ String.mk c = "os" ∨
          String.mk c = "default"))
    ∧ (String.mk c = "os" →
        cli_test_one env expr =
          TestOutcome.printed (os_condition env (some (String.mk comp))))
    ∧ ((String.mk c = "host" ∨ String.mk c = "hostname") →
        cli_test_one env expr =
          TestOutcome.printed (hostname_condition env (some (String.mk comp))))
    ∧ (String.mk c = "default" →
        cli_test_one env expr = TestOutcome.keyError ∧
          CONDITIONS_CALLABLE_MAP Condition.default = none) := by
  unfold cli_test_one
  rw [h]
  by_cases h1 : String.mk c = "host"
  · simp [h1, membersKeys, Condition.fromName, CONDITIONS_CALLABLE_MAP]
  · by_cases h2 : String.mk c = "hostname"
    · simp [h1, h2, membersKeys, Condition.fromName, CONDITIONS_CALLABLE_MAP]
    · by_cases h3 : String.mk c = "os"
      · simp [h1, h2, h3, membersKeys, Condition.fromName, CONDITIONS_CALLABLE_MAP]
      · by_cases h4 : String.mk c = "default"
        · simp [h1, h2, h3, h4, membersKeys, Condition.fromName, CONDITIONS_CALLABLE_MAP]
        · simp [h1, h2, h3, h4, membersKeys, Condition.fromName, CONDITIONS_CALLABLE_MAP]

/-- C10 witness: `test default.x` passes the validity check but crashes with
`KeyError` when the `Default` member is looked up in the condition map. -/
theorem spec_C10_witness :
    cli_test_one envW "default.x" = TestOutcome.keyError ∧
      CONDITIONS_CALLABLE_MAP Condition.default = none :=
  (spec_C10 envW "default.x" "default".data "x".data (by decide)).2.2.2 rfl

end Dotfiles
